import Mathlib

/-!
# coapmq broker: subscription registry and command dispatch

A shallow embedding of `broker.go` (package `coapmq`) and the properties of its
subscription registry (`topicMapClients`, `clientMapTopics`) and of its
dispatcher (`handleCoAPMessage`).

Modelling conventions

* A Go `map[K]V` is a function `K → Option V`: `none` is an absent key. Go maps
  are unordered, so two maps are equal exactly when they agree on every key.
* A Go slice is a `List`. Every slice of the registry is reachable through one
  map entry only, so the in-place behaviour of `append` is not observable.
* `*net.UDPAddr` is a pointer and `==` on it compares addresses: a client is
  the address held by the pointer, a natural number.
* `uint16` is a `Nat` reduced modulo `2 ^ 16`.
* Go strings and byte slices are both byte sequences and `string(b)` keeps the
  bytes: both are `String` here.
* `coap.Transmit(l, a, m)` is the only output of the program apart from the
  log. The listening connection `l` is the same in every call, so an output is
  the pair of the destination and the message, appended to a `Wire` trace.
  Log lines are not modelled.
-/

namespace Coapmq

/-! ## Go maps -/

/-- A Go map: `none` for an absent key. -/
abbrev GoMap (K V : Type) := K → Option V

/-- The Go expression `make(map[K]V, n)`: the map with no key. -/
def GoMap.make {K V : Type} : GoMap K V := fun _ => none

/-- The Go statement `m[k] = v`. -/
def GoMap.store {K V : Type} [DecidableEq K] (m : GoMap K V) (k : K) (v : V) : GoMap K V :=
  fun x => if x = k then some v else m x

/-- The Go statement `delete(m, k)`. -/
def GoMap.del {K V : Type} [DecidableEq K] (m : GoMap K V) (k : K) : GoMap K V :=
  fun x => if x = k then none else m x

/-- The Go expression `m[k]` for a slice-valued map: the nil slice for an absent key. -/
def GoMap.at {K V : Type} (m : GoMap K (List V)) (k : K) : List V :=
  (m k).getD []

/-! ## Messages of the CoAP library, as far as the broker uses them -/

/-- A client handle, `*net.UDPAddr`: the address the pointer holds. -/
abbrev UDPAddrPtr := Nat

/-- The type `coap.COAPType`. -/
inductive COAPType where
  | Confirmable
  | NonConfirmable
  | Acknowledgement
  | Reset
deriving DecidableEq, Repr

/-- The request codes of `coap.COAPCode` (response codes are not used by the broker). -/
inductive COAPCode where
  | GET
  | POST
  | PUT
  | DELETE
deriving DecidableEq, Repr

/-- The media types of `coap.MediaType` the broker names. -/
inductive MediaType where
  | TextPlain
  | AppLinkFormat
deriving DecidableEq, Repr

/-- The type `coap.Message`: the fields of the struct, and the two options the broker
reads or writes (`URIPath`, read by `Path()` and written by `SetPath`, and
`ContentFormat`). An empty `Path` is the nil slice `Path()` returns when the message
has no `URIPath` option. -/
structure Message where
  Typ : COAPType
  Code : COAPCode
  MessageID : Nat
  Token : String
  Payload : String
  Path : List String
  ContentFormat : Option MediaType
deriving DecidableEq, Repr

/-- One call `coap.Transmit(l, a, m)`. -/
structure Transmission where
  dest : UDPAddrPtr
  msg : Message
deriving DecidableEq, Repr

/-- Everything transmitted so far, oldest first. -/
abbrev Wire := List Transmission

/-! ## The broker -/

/-- The struct `Broker`. -/
structure Broker where
  capacity : Int
  msgIndex : Nat
  clientMapTopics : GoMap UDPAddrPtr (List String)
  topicMapClients : GoMap String (List UDPAddrPtr)

/-- The constructor `NewBroker`. `GetIPv4Int16()` and `GetLocalRandomInt()` are defined
outside `broker.go`; their results are the parameters `ipv4` and `rnd`, added as
`uint16`. -/
def NewBroker (maxChannel : Int) (ipv4 rnd : Nat) : Broker :=
  { capacity := maxChannel
    clientMapTopics := GoMap.make
    topicMapClients := GoMap.make
    msgIndex := (ipv4 + rnd) % 2 ^ 16 }

/-- The method `genMsgID`: the new counter is also the result. -/
def genMsgID (c : Broker) : Broker × Nat :=
  let c1 : Broker := { c with msgIndex := (c.msgIndex + 1) % 2 ^ 16 }
  (c1, c1.msgIndex)

/-- The loop `for k, v := range val { if v == x { removeIndex = k } }`, started at index
`k` with `removeIndex = acc`: the index of the last element equal to `x`, else `acc`. -/
def rangeIndex {α : Type} [DecidableEq α] (x : α) : List α → Nat → Int → Int
  | [], _, acc => acc
  | v :: vs, k, acc => rangeIndex x vs (k + 1) (if v = x then (k : Int) else acc)

/-- The loop `for _, v := range val { if v == x { found = true } }`, started with
`found = acc`. -/
def rangeFound {α : Type} [DecidableEq α] (x : α) : List α → Bool → Bool
  | [], acc => acc
  | v :: vs, acc => rangeFound x vs (if v = x then true else acc)

/-- The Go expression `append(s[:i], s[i+1:]...)`. -/
def cutAt {α : Type} (s : List α) (i : Int) : List α :=
  s.take i.toNat ++ s.drop (i.toNat + 1)

/-- The first half of `removeSubscription`: the forward index `topicMapClients`. -/
def removeT2C (c : Broker) (topic : String) (client : UDPAddrPtr) : Broker :=
  match c.topicMapClients topic with
  | some val =>
    let removeIndexT2C := rangeIndex client val 0 (-1)
    if removeIndexT2C ≠ -1 then
      let sliceClients := c.topicMapClients.at topic
      if sliceClients.length > 1 then
        { c with topicMapClients :=
            c.topicMapClients.store topic (cutAt sliceClients removeIndexT2C) }
      else
        { c with topicMapClients := c.topicMapClients.del topic }
    else c
  | none => c

/-- The second half of `removeSubscription`: the reverse index `clientMapTopics`. -/
def removeC2T (c : Broker) (topic : String) (client : UDPAddrPtr) : Broker :=
  match c.clientMapTopics client with
  | some val =>
    let removeIndexC2T := rangeIndex topic val 0 (-1)
    if removeIndexC2T ≠ -1 then
      let sliceTopics := c.clientMapTopics.at client
      if sliceTopics.length > 1 then
        { c with clientMapTopics :=
            c.clientMapTopics.store client (cutAt sliceTopics removeIndexC2T) }
      else
        { c with clientMapTopics := c.clientMapTopics.del client }
    else c
  | none => c

/-- The method `removeSubscription`. It has no result and no error value. -/
def removeSubscription (c : Broker) (topic : String) (client : UDPAddrPtr) : Broker :=
  removeC2T (removeT2C c topic client) topic client

/-- The first half of `addSubscription`: the forward index `topicMapClients`. -/
def addT2C (c : Broker) (topic : String) (client : UDPAddrPtr) : Broker :=
  let topicFound : Bool :=
    match c.topicMapClients topic with
    | some val => rangeFound client val false
    | none => false
  if topicFound = false then
    { c with topicMapClients :=
        c.topicMapClients.store topic (c.topicMapClients.at topic ++ [client]) }
  else c

/-- The second half of `addSubscription`: the reverse index `clientMapTopics`. -/
def addC2T (c : Broker) (topic : String) (client : UDPAddrPtr) : Broker :=
  let clientFound : Bool :=
    match c.clientMapTopics client with
    | some val => rangeFound topic val false
    | none => false
  if clientFound = false then
    { c with clientMapTopics :=
        c.clientMapTopics.store client (c.clientMapTopics.at client ++ [topic]) }
  else c

/-- The method `addSubscription`. -/
def addSubscription (c : Broker) (topic : String) (client : UDPAddrPtr) : Broker :=
  addC2T (addT2C c topic client) topic client

/-- The method `publishMsg`: its body is empty, it transmits nothing. -/
def publishMsg (c : Broker) (w : Wire) (_a : UDPAddrPtr) (_topic _msg : String) :
    Broker × Wire :=
  (c, w)

/-- The method `publish`: one call of `publishMsg` for each element of the topic's
slice, in order; nothing for an absent topic. -/
def publish (c : Broker) (w : Wire) (topic msg : String) : Broker × Wire :=
  match c.topicMapClients topic with
  | none => (c, w)
  | some clients =>
    clients.foldl (fun s client => publishMsg s.1 s.2 client topic msg) (c, w)

/-- The method `responseOK`: builds the acknowledgement and hands it to
`coap.Transmit`; a transmit error is logged only. -/
def responseOK (c : Broker) (w : Wire) (a : UDPAddrPtr) (m : Message) : Broker × Wire :=
  let m2 : Message :=
    { Typ := COAPType.Acknowledgement
      Code := COAPCode.GET
      MessageID := m.MessageID
      Payload := m.Payload
      Token := ""
      Path := []
      ContentFormat := none }
  let m2 : Message := { m2 with ContentFormat := some MediaType.AppLinkFormat }
  let m2 : Message := { m2 with Path := m.Path }
  (c, w ++ [{ dest := a, msg := m2 }])

/-- The method `handleCoAPMessage`: the broker and the wire afterwards, and the
returned message (`none` for `nil`). -/
def handleCoAPMessage (c : Broker) (w : Wire) (a : UDPAddrPtr) (m : Message) :
    Broker × Wire × Option Message :=
  match m.Path with
  | [] => (c, w, none)
  | cmd :: rest =>
    if cmd ≠ "ps" then (c, w, none)
    else
      let topic : String :=
        match rest with
        | t :: _ => t
        | [] => ""
      let r : Broker × Wire :=
        if cmd = "ADDSUB" then
          responseOK (addSubscription c topic a) w a m
        else if cmd = "REMSUB" then
          responseOK (removeSubscription c topic a) w a m
        else if cmd = "PUB" then
          let p := publish c w topic m.Payload
          responseOK p.1 p.2 a m
        else if cmd = "HB" then
          responseOK c w a m
        else (c, w)
      (r.1, r.2, none)

/-! ## Reachable states -/

/-- The broker states `NewBroker` followed by any finite sequence of `addSubscription`
and `removeSubscription` calls can produce. -/
inductive Reachable : Broker → Prop where
  | init (maxChannel : Int) (ipv4 rnd : Nat) : Reachable (NewBroker maxChannel ipv4 rnd)
  | add {b : Broker} (t : String) (c : UDPAddrPtr) :
      Reachable b → Reachable (addSubscription b t c)
  | remove {b : Broker} (t : String) (c : UDPAddrPtr) :
      Reachable b → Reachable (removeSubscription b t c)

/-! ## What one call does to one index

`addSubscription` and `removeSubscription` treat the two indexes alike and
independently of each other. The two functions below describe the effect on one
index; they are used in proofs only. -/

/-- The effect of `addSubscription` on one index: `v` is appended to the slice under
`k` unless it is already there. -/
def GoMap.addTo {K V : Type} [DecidableEq K] [DecidableEq V]
    (m : GoMap K (List V)) (k : K) (v : V) : GoMap K (List V) :=
  if v ∈ m.at k then m else m.store k (m.at k ++ [v])

/-- The effect of `removeSubscription` on one index: the last occurrence of `v` is cut
out of the slice under `k`, and the key is deleted when the slice had one element. -/
def GoMap.removeFrom {K V : Type} [DecidableEq K] [DecidableEq V]
    (m : GoMap K (List V)) (k : K) (v : V) : GoMap K (List V) :=
  if v ∈ m.at k then
    if (m.at k).length > 1 then m.store k (cutAt (m.at k) (rangeIndex v (m.at k) 0 (-1)))
    else m.del k
  else m

/-- No key of the map holds an empty slice. -/
def GoMap.NoEmpty {K V : Type} (m : GoMap K (List V)) : Prop :=
  ∀ k l, m k = some l → l ≠ []

/-- No slice of the map holds an element twice. -/
def GoMap.NoDup {K V : Type} (m : GoMap K (List V)) : Prop :=
  ∀ k, (m.at k).Nodup

/-! ## The registry invariant and sample inputs -/

/-- The invariant of the registry: the two indexes hold the same pairs, no key holds an
empty slice, no slice holds an element twice. -/
structure Inv (b : Broker) : Prop where
  consistent : ∀ t c, c ∈ b.topicMapClients.at t ↔ t ∈ b.clientMapTopics.at c
  fwdNoEmpty : b.topicMapClients.NoEmpty
  revNoEmpty : b.clientMapTopics.NoEmpty
  fwdNoDup : b.topicMapClients.NoDup
  revNoDup : b.clientMapTopics.NoDup

/-- A confirmable request with the given path and payload. -/
def request (path : List String) (payload : String) : Message :=
  { Typ := COAPType.Confirmable
    Code := COAPCode.POST
    MessageID := 7
    Token := ""
    Payload := payload
    Path := path
    ContentFormat := none }

/-- A fresh broker. -/
def broker0 : Broker := NewBroker 1024 0 0

/-- After `subscribe(temp, A)`, the client A at address 1. -/
def brokerA : Broker := addSubscription broker0 "temp" 1

/-- After `subscribe(temp, A)` and `subscribe(temp, B)`, the client B at address 2. -/
def brokerAB : Broker := addSubscription brokerA "temp" 2

/-! ## Endpoints behind the handles, and repeated identifiers -/

/-- The struct `net.UDPAddr` a handle points to. -/
structure UDPAddr where
  IP : String
  Port : Nat
  Zone : String
deriving DecidableEq, Repr

/-- The memory the handles point into: the endpoint stored at each address. The broker
never reads it: it compares and stores the handles themselves. -/
abbrev AddrHeap := UDPAddrPtr → UDPAddr

/-- A memory in which the handles 1 and 2 are two allocations of one endpoint, as
produced by two datagrams received from the same sender. -/
def sampleHeap : AddrHeap := fun p =>
  if p = 1 ∨ p = 2 then { IP := "10.0.0.7", Port := 5683, Zone := "" }
  else { IP := "10.0.0.9", Port := p, Zone := "" }

/-- The entries of topic `t` whose handle denotes the endpoint `e`. -/
def endpointEntries (heap : AddrHeap) (b : Broker) (t : String) (e : UDPAddr) :
    List UDPAddrPtr :=
  (b.topicMapClients.at t).filter (fun h => heap h = e)

/-- The results of `k` successive calls of `genMsgID`, oldest first, and the broker
after them. -/
def genMsgIDs : Nat → Broker → Broker × List Nat
  | 0, c => (c, [])
  | k + 1, c =>
    let r := genMsgID c
    let rest := genMsgIDs k r.1
    (rest.1, r.2 :: rest.2)

/-! ### The two range loops -/

theorem rangeFound_eq {α : Type} [DecidableEq α] (x : α) (xs : List α) (acc : Bool) :
    rangeFound x xs acc = (acc || decide (x ∈ xs)) := by
  induction xs generalizing acc with
  | nil => simp [rangeFound]
  | cons v vs ih =>
    rw [rangeFound, ih]
    by_cases h : v = x
    · simp [h]
    · have h2 : ¬ x = v := fun e => h e.symm
      simp [h, h2]

theorem rangeFound_false_iff {α : Type} [DecidableEq α] (x : α) (xs : List α) :
    rangeFound x xs false = false ↔ x ∉ xs := by
  rw [rangeFound_eq]; simp

theorem rangeIndex_not_mem {α : Type} [DecidableEq α] (x : α) (xs : List α) (k : Nat)
    (acc : Int) (h : x ∉ xs) : rangeIndex x xs k acc = acc := by
  induction xs generalizing k acc with
  | nil => rfl
  | cons v vs ih =>
    have hv : ¬ v = x := fun e => h (by simp [e])
    have hvs : x ∉ vs := fun e => h (List.mem_cons_of_mem _ e)
    rw [rangeIndex, ih (k + 1) _ hvs]
    simp [hv]

/-- When `x` occurs, the loop ends with the index of its last occurrence. -/
theorem rangeIndex_mem {α : Type} [DecidableEq α] (x : α) (xs : List α) (k : Nat)
    (acc : Int) (h : x ∈ xs) :
    ∃ l1 l2, xs = l1 ++ x :: l2 ∧ x ∉ l2 ∧ rangeIndex x xs k acc = ((k + l1.length : Nat) : Int) := by
  induction xs generalizing k acc with
  | nil => simp at h
  | cons v vs ih =>
    by_cases hvs : x ∈ vs
    · obtain ⟨l1, l2, e, hn, hr⟩ := ih (k + 1) (if v = x then (k : Int) else acc) hvs
      refine ⟨v :: l1, l2, by simp [e], hn, ?_⟩
      rw [rangeIndex, hr]
      simp only [List.length_cons]
      congr 1
      omega
    · have hv : v = x := by
        rcases List.mem_cons.mp h with e | e
        · exact e.symm
        · exact absurd e hvs
      refine ⟨[], vs, by simp [hv], hvs, ?_⟩
      rw [rangeIndex, rangeIndex_not_mem x vs (k + 1) _ hvs]
      simp [hv]

theorem rangeIndex_ne_iff {α : Type} [DecidableEq α] (x : α) (xs : List α) :
    rangeIndex x xs 0 (-1) ≠ -1 ↔ x ∈ xs := by
  constructor
  · intro h
    by_contra hx
    exact h (rangeIndex_not_mem x xs 0 (-1) hx)
  · intro h
    obtain ⟨l1, l2, _, _, hr⟩ := rangeIndex_mem x xs 0 (-1) h
    rw [hr]
    omega

/-- A found index is in range: the slice expressions of `removeSubscription` do not
fail. -/
theorem rangeIndex_lt {α : Type} [DecidableEq α] (x : α) (xs : List α)
    (h : rangeIndex x xs 0 (-1) ≠ -1) :
    0 ≤ rangeIndex x xs 0 (-1) ∧ rangeIndex x xs 0 (-1) < xs.length := by
  obtain ⟨l1, l2, e, _, hr⟩ := rangeIndex_mem x xs 0 (-1) ((rangeIndex_ne_iff x xs).mp h)
  rw [hr]
  subst e
  simp

theorem cutAt_append {α : Type} (l1 l2 : List α) (x : α) :
    cutAt (l1 ++ x :: l2) ((l1.length : Nat) : Int) = l1 ++ l2 := by
  simp [cutAt, List.take_append_eq_append_take, List.drop_append_eq_append_drop]

/-- Cutting at the index the loop found removes the last occurrence. -/
theorem cutAt_rangeIndex {α : Type} [DecidableEq α] (x : α) (xs : List α) (h : x ∈ xs) :
    ∃ l1 l2, xs = l1 ++ x :: l2 ∧ x ∉ l2 ∧ cutAt xs (rangeIndex x xs 0 (-1)) = l1 ++ l2 := by
  obtain ⟨l1, l2, e, hn, hr⟩ := rangeIndex_mem x xs 0 (-1) h
  refine ⟨l1, l2, e, hn, ?_⟩
  rw [hr, Nat.zero_add]
  subst e
  exact cutAt_append l1 l2 x

/-! ### Reading a map -/

theorem GoMap.at_store {K V : Type} [DecidableEq K] (m : GoMap K (List V)) (k k2 : K)
    (l : List V) : (m.store k l).at k2 = if k2 = k then l else m.at k2 := by
  unfold GoMap.at GoMap.store
  by_cases h : k2 = k <;> simp [h]

theorem GoMap.at_del {K V : Type} [DecidableEq K] (m : GoMap K (List V)) (k k2 : K) :
    (m.del k).at k2 = if k2 = k then [] else m.at k2 := by
  unfold GoMap.at GoMap.del
  by_cases h : k2 = k <;> simp [h]

theorem GoMap.mem_at_iff {K V : Type} (m : GoMap K (List V)) (k : K) (v : V) :
    v ∈ m.at k ↔ ∃ l, m k = some l ∧ v ∈ l := by
  unfold GoMap.at
  cases h : m k <;> simp

theorem GoMap.at_of_some {K V : Type} (m : GoMap K (List V)) (k : K) (l : List V)
    (h : m k = some l) : m.at k = l := by
  simp [GoMap.at, h]

/-- Without empty slices, a key is present exactly when its slice has an element. -/
theorem GoMap.isSome_iff_of_noEmpty {K V : Type} (m : GoMap K (List V)) (hm : m.NoEmpty)
    (k : K) : (m k).isSome = true ↔ ∃ v, v ∈ m.at k := by
  constructor
  · intro h
    obtain ⟨l, hl⟩ := Option.isSome_iff_exists.mp h
    obtain ⟨v, hv⟩ := List.exists_mem_of_ne_nil l (hm k l hl)
    exact ⟨v, (m.mem_at_iff k v).mpr ⟨l, hl, hv⟩⟩
  · rintro ⟨v, hv⟩
    obtain ⟨l, hl, _⟩ := (m.mem_at_iff k v).mp hv
    simp [hl]

/-! ### Adding to one index -/

theorem GoMap.mem_at_addTo {K V : Type} [DecidableEq K] [DecidableEq V]
    (m : GoMap K (List V)) (k k2 : K) (v v2 : V) :
    v2 ∈ (m.addTo k v).at k2 ↔ v2 ∈ m.at k2 ∨ (k2 = k ∧ v2 = v) := by
  unfold GoMap.addTo
  by_cases h : v ∈ m.at k
  · rw [if_pos h]
    constructor
    · exact Or.inl
    · rintro (h2 | ⟨rfl, rfl⟩)
      · exact h2
      · exact h
  · rw [if_neg h, GoMap.at_store]
    by_cases hk : k2 = k
    · subst hk
      simp
    · simp [hk]

theorem GoMap.addTo_addTo {K V : Type} [DecidableEq K] [DecidableEq V]
    (m : GoMap K (List V)) (k : K) (v : V) : (m.addTo k v).addTo k v = m.addTo k v := by
  have h : v ∈ (m.addTo k v).at k := (m.mem_at_addTo k k v v).mpr (Or.inr ⟨rfl, rfl⟩)
  generalize m.addTo k v = m2 at h ⊢
  unfold GoMap.addTo
  rw [if_pos h]

theorem GoMap.addTo_noEmpty {K V : Type} [DecidableEq K] [DecidableEq V]
    (m : GoMap K (List V)) (k : K) (v : V) (hm : m.NoEmpty) : (m.addTo k v).NoEmpty := by
  intro k2 l hl
  unfold GoMap.addTo at hl
  by_cases h : v ∈ m.at k
  · rw [if_pos h] at hl
    exact hm k2 l hl
  · rw [if_neg h] at hl
    unfold GoMap.store at hl
    by_cases hk : k2 = k
    · rw [if_pos hk] at hl
      cases hl
      simp
    · rw [if_neg hk] at hl
      exact hm k2 l hl

theorem GoMap.addTo_noDup {K V : Type} [DecidableEq K] [DecidableEq V]
    (m : GoMap K (List V)) (k : K) (v : V) (hm : m.NoDup) : (m.addTo k v).NoDup := by
  intro k2
  unfold GoMap.addTo
  by_cases h : v ∈ m.at k
  · rw [if_pos h]
    exact hm k2
  · rw [if_neg h, GoMap.at_store]
    by_cases hk : k2 = k
    · rw [if_pos hk]
      refine List.Nodup.append (hm k) (List.nodup_singleton v) ?_
      intro a ha hb
      rw [List.mem_singleton] at hb
      exact h (hb ▸ ha)
    · rw [if_neg hk]
      exact hm k2

theorem GoMap.isSome_addTo {K V : Type} [DecidableEq K] [DecidableEq V]
    (m : GoMap K (List V)) (k k2 : K) (v : V) :
    ((m.addTo k v) k2).isSome = true ↔ (m k2).isSome = true ∨ k2 = k := by
  unfold GoMap.addTo
  by_cases h : v ∈ m.at k
  · rw [if_pos h]
    constructor
    · exact Or.inl
    · rintro (h2 | rfl)
      · exact h2
      · obtain ⟨l, hl, _⟩ := (m.mem_at_iff k2 v).mp h
        simp [hl]
  · rw [if_neg h]
    unfold GoMap.store
    by_cases hk : k2 = k <;> simp [hk]

/-! ### Removing from one index -/

theorem GoMap.removeFrom_of_not_mem {K V : Type} [DecidableEq K] [DecidableEq V]
    (m : GoMap K (List V)) (k : K) (v : V) (h : v ∉ m.at k) : m.removeFrom k v = m := by
  unfold GoMap.removeFrom
  rw [if_neg h]

/-- When `v` is under `k`, the slice splits around the last `v`, which is dropped. -/
theorem GoMap.removeFrom_of_mem {K V : Type} [DecidableEq K] [DecidableEq V]
    (m : GoMap K (List V)) (k : K) (v : V) (h : v ∈ m.at k) :
    ∃ l1 l2, m.at k = l1 ++ v :: l2 ∧ v ∉ l2 ∧
      m.removeFrom k v = if l1 ++ l2 = [] then m.del k else m.store k (l1 ++ l2) := by
  obtain ⟨l1, l2, e, hn, hc⟩ := cutAt_rangeIndex v (m.at k) h
  refine ⟨l1, l2, e, hn, ?_⟩
  unfold GoMap.removeFrom
  rw [if_pos h, hc, e]
  by_cases hl : l1 ++ l2 = []
  · have h1 : l1 = [] := (List.append_eq_nil.mp hl).1
    have h2 : l2 = [] := (List.append_eq_nil.mp hl).2
    subst h1 h2
    simp
  · have hlen : (l1 ++ v :: l2).length > 1 := by
      have : 0 < (l1 ++ l2).length := List.length_pos.mpr hl
      simp only [List.length_append, List.length_cons] at this ⊢
      omega
    rw [if_pos hlen, if_neg hl]

theorem GoMap.mem_at_removeFrom_of_ne {K V : Type} [DecidableEq K] [DecidableEq V]
    (m : GoMap K (List V)) (k k2 : K) (v v2 : V) (hne : ¬ (k2 = k ∧ v2 = v)) :
    v2 ∈ (m.removeFrom k v).at k2 ↔ v2 ∈ m.at k2 := by
  by_cases h : v ∈ m.at k
  · obtain ⟨l1, l2, e, _, hr⟩ := m.removeFrom_of_mem k v h
    rw [hr]
    by_cases hk : k2 = k
    · subst hk
      have hv : v2 ≠ v := fun e2 => hne ⟨rfl, e2⟩
      rw [e]
      by_cases hl : l1 ++ l2 = []
      · rw [if_pos hl, GoMap.at_del, if_pos rfl]
        have h1 : l1 = [] := (List.append_eq_nil.mp hl).1
        have h2 : l2 = [] := (List.append_eq_nil.mp hl).2
        subst h1 h2
        simp [hv]
      · rw [if_neg hl, GoMap.at_store, if_pos rfl]
        simp [hv]
    · by_cases hl : l1 ++ l2 = []
      · rw [if_pos hl, GoMap.at_del, if_neg hk]
      · rw [if_neg hl, GoMap.at_store, if_neg hk]
  · rw [m.removeFrom_of_not_mem k v h]

theorem GoMap.not_mem_at_removeFrom {K V : Type} [DecidableEq K] [DecidableEq V]
    (m : GoMap K (List V)) (k : K) (v : V) (hd : (m.at k).Nodup) :
    v ∉ (m.removeFrom k v).at k := by
  by_cases h : v ∈ m.at k
  · obtain ⟨l1, l2, e, hn, hr⟩ := m.removeFrom_of_mem k v h
    rw [hr]
    rw [e] at hd
    have h1 : v ∉ l1 := by
      intro hv
      have := (List.nodup_append.mp hd).2.2
      exact this hv (List.mem_cons_self v l2)
    by_cases hl : l1 ++ l2 = []
    · rw [if_pos hl, GoMap.at_del, if_pos rfl]
      simp
    · rw [if_neg hl, GoMap.at_store, if_pos rfl]
      simp [h1, hn]
  · rw [m.removeFrom_of_not_mem k v h]
    exact h

theorem GoMap.removeFrom_noEmpty {K V : Type} [DecidableEq K] [DecidableEq V]
    (m : GoMap K (List V)) (k : K) (v : V) (hm : m.NoEmpty) : (m.removeFrom k v).NoEmpty := by
  by_cases h : v ∈ m.at k
  · obtain ⟨l1, l2, _, _, hr⟩ := m.removeFrom_of_mem k v h
    rw [hr]
    intro k2 l hl
    by_cases hl2 : l1 ++ l2 = []
    · rw [if_pos hl2] at hl
      unfold GoMap.del at hl
      by_cases hk : k2 = k
      · rw [if_pos hk] at hl
        cases hl
      · rw [if_neg hk] at hl
        exact hm k2 l hl
    · rw [if_neg hl2] at hl
      unfold GoMap.store at hl
      by_cases hk : k2 = k
      · rw [if_pos hk] at hl
        cases hl
        exact hl2
      · rw [if_neg hk] at hl
        exact hm k2 l hl
  · rw [m.removeFrom_of_not_mem k v h]
    exact hm

theorem GoMap.removeFrom_noDup {K V : Type} [DecidableEq K] [DecidableEq V]
    (m : GoMap K (List V)) (k : K) (v : V) (hm : m.NoDup) : (m.removeFrom k v).NoDup := by
  by_cases h : v ∈ m.at k
  · obtain ⟨l1, l2, e, _, hr⟩ := m.removeFrom_of_mem k v h
    rw [hr]
    intro k2
    have hd := hm k
    rw [e] at hd
    have hd2 : (l1 ++ l2).Nodup := by
      refine List.Nodup.sublist ?_ hd
      exact List.Sublist.append_left (List.sublist_cons_self v l2) l1
    by_cases hl : l1 ++ l2 = []
    · rw [if_pos hl, GoMap.at_del]
      by_cases hk : k2 = k
      · rw [if_pos hk]
        exact List.nodup_nil
      · rw [if_neg hk]
        exact hm k2
    · rw [if_neg hl, GoMap.at_store]
      by_cases hk : k2 = k
      · rw [if_pos hk]
        exact hd2
      · rw [if_neg hk]
        exact hm k2
  · rw [m.removeFrom_of_not_mem k v h]
    exact hm

/-! ### The methods in terms of the two indexes -/

theorem addT2C_eq (c : Broker) (topic : String) (client : UDPAddrPtr) :
    addT2C c topic client =
      { c with topicMapClients := c.topicMapClients.addTo topic client } := by
  unfold addT2C GoMap.addTo
  cases h : c.topicMapClients topic with
  | none => simp [GoMap.at, h]
  | some val =>
    by_cases hm : client ∈ val
    · simp [GoMap.at, h, rangeFound_eq, hm]
    · simp [GoMap.at, h, rangeFound_eq, hm]

theorem addC2T_eq (c : Broker) (topic : String) (client : UDPAddrPtr) :
    addC2T c topic client =
      { c with clientMapTopics := c.clientMapTopics.addTo client topic } := by
  unfold addC2T GoMap.addTo
  cases h : c.clientMapTopics client with
  | none => simp [GoMap.at, h]
  | some val =>
    by_cases hm : topic ∈ val
    · simp [GoMap.at, h, rangeFound_eq, hm]
    · simp [GoMap.at, h, rangeFound_eq, hm]

theorem addSubscription_eq (c : Broker) (topic : String) (client : UDPAddrPtr) :
    addSubscription c topic client =
      { c with topicMapClients := c.topicMapClients.addTo topic client
               clientMapTopics := c.clientMapTopics.addTo client topic } := by
  unfold addSubscription
  rw [addC2T_eq, addT2C_eq]

theorem removeT2C_eq (c : Broker) (topic : String) (client : UDPAddrPtr) :
    removeT2C c topic client =
      { c with topicMapClients := c.topicMapClients.removeFrom topic client } := by
  unfold removeT2C GoMap.removeFrom
  cases h : c.topicMapClients topic with
  | none => simp [GoMap.at, h]
  | some val =>
    have hat : c.topicMapClients.at topic = val := GoMap.at_of_some _ _ _ h
    by_cases hm : client ∈ val
    · have hi : rangeIndex client val 0 (-1) ≠ -1 := (rangeIndex_ne_iff client val).mpr hm
      simp only [hat, hm, if_true]
      rw [if_pos hi]
      split <;> rfl
    · have hi : ¬ rangeIndex client val 0 (-1) ≠ -1 := by
        rw [rangeIndex_ne_iff]; exact hm
      simp only [hat, hm, if_false]
      rw [if_neg hi]

theorem removeC2T_eq (c : Broker) (topic : String) (client : UDPAddrPtr) :
    removeC2T c topic client =
      { c with clientMapTopics := c.clientMapTopics.removeFrom client topic } := by
  unfold removeC2T GoMap.removeFrom
  cases h : c.clientMapTopics client with
  | none => simp [GoMap.at, h]
  | some val =>
    have hat : c.clientMapTopics.at client = val := GoMap.at_of_some _ _ _ h
    by_cases hm : topic ∈ val
    · have hi : rangeIndex topic val 0 (-1) ≠ -1 := (rangeIndex_ne_iff topic val).mpr hm
      simp only [hat, hm, if_true]
      rw [if_pos hi]
      split <;> rfl
    · have hi : ¬ rangeIndex topic val 0 (-1) ≠ -1 := by
        rw [rangeIndex_ne_iff]; exact hm
      simp only [hat, hm, if_false]
      rw [if_neg hi]

theorem removeSubscription_eq (c : Broker) (topic : String) (client : UDPAddrPtr) :
    removeSubscription c topic client =
      { c with topicMapClients := c.topicMapClients.removeFrom topic client
               clientMapTopics := c.clientMapTopics.removeFrom client topic } := by
  unfold removeSubscription
  rw [removeC2T_eq, removeT2C_eq]

/-! ## The registry invariant holds in every reachable state -/

theorem Inv_NewBroker (maxChannel : Int) (ipv4 rnd : Nat) :
    Inv (NewBroker maxChannel ipv4 rnd) where
  consistent := by intro t c; simp [NewBroker, GoMap.make, GoMap.at]
  fwdNoEmpty := by intro k l h; simp [NewBroker, GoMap.make] at h
  revNoEmpty := by intro k l h; simp [NewBroker, GoMap.make] at h
  fwdNoDup := by intro k; simp [NewBroker, GoMap.make, GoMap.at]
  revNoDup := by intro k; simp [NewBroker, GoMap.make, GoMap.at]

theorem Inv_addSubscription (b : Broker) (t : String) (c : UDPAddrPtr) (h : Inv b) :
    Inv (addSubscription b t c) := by
  rw [addSubscription_eq]
  refine ⟨?_, ?_, ?_, ?_, ?_⟩
  · intro t2 c2
    show c2 ∈ (b.topicMapClients.addTo t c).at t2 ↔ t2 ∈ (b.clientMapTopics.addTo c t).at c2
    rw [GoMap.mem_at_addTo, GoMap.mem_at_addTo, h.consistent t2 c2]
    exact or_congr Iff.rfl and_comm
  · exact GoMap.addTo_noEmpty _ t c h.fwdNoEmpty
  · exact GoMap.addTo_noEmpty _ c t h.revNoEmpty
  · exact GoMap.addTo_noDup _ t c h.fwdNoDup
  · exact GoMap.addTo_noDup _ c t h.revNoDup

theorem Inv_removeSubscription (b : Broker) (t : String) (c : UDPAddrPtr) (h : Inv b) :
    Inv (removeSubscription b t c) := by
  rw [removeSubscription_eq]
  refine ⟨?_, ?_, ?_, ?_, ?_⟩
  · intro t2 c2
    show c2 ∈ (b.topicMapClients.removeFrom t c).at t2 ↔
      t2 ∈ (b.clientMapTopics.removeFrom c t).at c2
    by_cases hp : t2 = t ∧ c2 = c
    · obtain ⟨rfl, rfl⟩ := hp
      have h1 := GoMap.not_mem_at_removeFrom b.topicMapClients t2 c2 (h.fwdNoDup t2)
      have h2 := GoMap.not_mem_at_removeFrom b.clientMapTopics c2 t2 (h.revNoDup c2)
      exact ⟨fun e => absurd e h1, fun e => absurd e h2⟩
    · have hq : ¬ (c2 = c ∧ t2 = t) := fun e => hp ⟨e.2, e.1⟩
      rw [GoMap.mem_at_removeFrom_of_ne _ t t2 c c2 hp,
        GoMap.mem_at_removeFrom_of_ne _ c c2 t t2 hq]
      exact h.consistent t2 c2
  · exact GoMap.removeFrom_noEmpty _ t c h.fwdNoEmpty
  · exact GoMap.removeFrom_noEmpty _ c t h.revNoEmpty
  · exact GoMap.removeFrom_noDup _ t c h.fwdNoDup
  · exact GoMap.removeFrom_noDup _ c t h.revNoDup

/-- Every reachable state satisfies the invariant. -/
theorem Inv_of_reachable (b : Broker) (h : Reachable b) : Inv b := by
  induction h with
  | init maxChannel ipv4 rnd => exact Inv_NewBroker maxChannel ipv4 rnd
  | add t c _ ih => exact Inv_addSubscription _ t c ih
  | remove t c _ ih => exact Inv_removeSubscription _ t c ih

/-! ## The sample states -/

theorem reachable_broker0 : Reachable broker0 := Reachable.init 1024 0 0

theorem reachable_brokerA : Reachable brokerA := Reachable.add "temp" 1 reachable_broker0

theorem reachable_brokerAB : Reachable brokerAB := Reachable.add "temp" 2 reachable_brokerA

theorem brokerA_fwd : brokerA.topicMapClients.at "temp" = [1] := by
  simp [brokerA, broker0, addSubscription_eq, NewBroker, GoMap.addTo, GoMap.at, GoMap.make,
    GoMap.store]

theorem brokerA_rev_two : brokerA.clientMapTopics.at 2 = [] := by
  simp [brokerA, broker0, addSubscription_eq, NewBroker, GoMap.addTo, GoMap.at, GoMap.make,
    GoMap.store]

theorem brokerAB_fwd : brokerAB.topicMapClients "temp" = some [1, 2] := by
  simp [brokerAB, brokerA, broker0, addSubscription_eq, NewBroker, GoMap.addTo, GoMap.at,
    GoMap.make, GoMap.store]

/-- The scenario of the specification, for any two distinct clients `A` and `B`: after
`subscribe(temp, A)`, `subscribe(temp, B)`, `unsubscribe(temp, A)` the topic holds
`[B]`; after `unsubscribe(temp, B)` the key is gone. -/
theorem scenario_temp (maxChannel : Int) (ipv4 rnd : Nat) (A B : UDPAddrPtr) (hAB : A ≠ B) :
    (removeSubscription (addSubscription (addSubscription
        (NewBroker maxChannel ipv4 rnd) "temp" A) "temp" B) "temp" A).topicMapClients "temp"
      = some [B] ∧
    (removeSubscription (removeSubscription (addSubscription (addSubscription
        (NewBroker maxChannel ipv4 rnd) "temp" A) "temp" B) "temp" A) "temp" B).topicMapClients
        "temp" = none := by
  have hBA : ¬ B = A := fun e => hAB e.symm
  constructor <;>
  simp [removeSubscription_eq, addSubscription_eq, NewBroker, GoMap.addTo, GoMap.removeFrom,
    GoMap.at, GoMap.make, GoMap.store, GoMap.del, rangeIndex, cutAt, hAB, hBA]

/-! ## The dispatcher -/

theorem publish_fold (clients : List UDPAddrPtr) (c : Broker) (w : Wire) (topic msg : String) :
    clients.foldl (fun s client => publishMsg s.1 s.2 client topic msg) (c, w) = (c, w) := by
  induction clients with
  | nil => rfl
  | cons x xs ih => simp [List.foldl, publishMsg]

/-- The method `publish` changes neither the broker nor the wire. -/
theorem publish_eq (c : Broker) (w : Wire) (topic msg : String) :
    publish c w topic msg = (c, w) := by
  unfold publish
  cases c.topicMapClients topic with
  | none => rfl
  | some clients => exact publish_fold clients c w topic msg

/-- The method `handleCoAPMessage` changes neither the broker nor the wire: a first
segment other than `ps` returns at the guard, and `ps` matches none of the verbs. -/
theorem handleCoAPMessage_eq (c : Broker) (w : Wire) (a : UDPAddrPtr) (m : Message) :
    handleCoAPMessage c w a m = (c, w, none) := by
  unfold handleCoAPMessage
  cases m.Path with
  | nil => rfl
  | cons cmd rest =>
    by_cases h : cmd = "ps"
    · subst h
      simp
    · simp [h]

/-! ## The claims -/

/-- C1. In every broker state reachable from `NewBroker` by `addSubscription` and
`removeSubscription` calls, a client `c` is in the forward index's slice for a topic
`t` if and only if `t` is in the reverse index's slice for `c`. -/
theorem C1_indexes_consistent (b : Broker) (h : Reachable b) (t : String) (c : UDPAddrPtr) :
    c ∈ b.topicMapClients.at t ↔ t ∈ b.clientMapTopics.at c :=
  (Inv_of_reachable b h).consistent t c

theorem C1_indexes_consistent_witness :
    Reachable brokerAB ∧
      (2 ∈ brokerAB.topicMapClients.at "temp" ↔ "temp" ∈ brokerAB.clientMapTopics.at 2) :=
  ⟨reachable_brokerAB, C1_indexes_consistent brokerAB reachable_brokerAB "temp" 2⟩

/-- C2. In every reachable broker state every topic key of `topicMapClients` maps to a
non-empty slice and every client key of `clientMapTopics` maps to a non-empty slice;
a key is present if and only if its slice has at least one element. -/
theorem C2_no_empty_entries (b : Broker) (h : Reachable b) :
    (∀ t l, b.topicMapClients t = some l → l ≠ []) ∧
    (∀ c l, b.clientMapTopics c = some l → l ≠ []) ∧
    (∀ t, (b.topicMapClients t).isSome = true ↔ ∃ c, c ∈ b.topicMapClients.at t) ∧
    (∀ c, (b.clientMapTopics c).isSome = true ↔ ∃ t, t ∈ b.clientMapTopics.at c) := by
  have hi := Inv_of_reachable b h
  exact ⟨hi.fwdNoEmpty, hi.revNoEmpty,
    fun t => GoMap.isSome_iff_of_noEmpty _ hi.fwdNoEmpty t,
    fun c => GoMap.isSome_iff_of_noEmpty _ hi.revNoEmpty c⟩

theorem C2_no_empty_entries_witness :
    Reachable brokerAB ∧
    ((∀ t l, brokerAB.topicMapClients t = some l → l ≠ []) ∧
    (∀ c l, brokerAB.clientMapTopics c = some l → l ≠ []) ∧
    (∀ t, (brokerAB.topicMapClients t).isSome = true ↔ ∃ c, c ∈ brokerAB.topicMapClients.at t) ∧
    (∀ c, (brokerAB.clientMapTopics c).isSome = true ↔
      ∃ t, t ∈ brokerAB.clientMapTopics.at c)) :=
  ⟨reachable_brokerAB, C2_no_empty_entries brokerAB reachable_brokerAB⟩

/-- C3. In every reachable broker state no client occurs more than once in a topic's
subscriber slice and no topic occurs more than once in a client's topic slice. -/
theorem C3_no_duplicates (b : Broker) (h : Reachable b) :
    (∀ t l, b.topicMapClients t = some l → l.Nodup) ∧
    (∀ c l, b.clientMapTopics c = some l → l.Nodup) := by
  have hi := Inv_of_reachable b h
  constructor
  · intro t l hl
    have := hi.fwdNoDup t
    rwa [GoMap.at_of_some _ _ _ hl] at this
  · intro c l hl
    have := hi.revNoDup c
    rwa [GoMap.at_of_some _ _ _ hl] at this

theorem C3_no_duplicates_witness :
    Reachable brokerAB ∧
    ((∀ t l, brokerAB.topicMapClients t = some l → l.Nodup) ∧
    (∀ c l, brokerAB.clientMapTopics c = some l → l.Nodup)) :=
  ⟨reachable_brokerAB, C3_no_duplicates brokerAB reachable_brokerAB⟩

/-- C4. For every broker state, topic `t` and client `c`, calling `addSubscription(t, c)`
twice in a row gives the same broker, so the same forward and reverse indexes, as
calling it once. -/
theorem C4_addSubscription_idempotent (b : Broker) (t : String) (c : UDPAddrPtr) :
    addSubscription (addSubscription b t c) t c = addSubscription b t c := by
  rw [addSubscription_eq (addSubscription b t c), addSubscription_eq b]
  simp only [GoMap.addTo_addTo]

/-- C5. For every broker state, topic `t` and client `c` with `c` not in the slice of
`t` and `t` not in the slice of `c`, `removeSubscription(t, c)` returns the broker
unchanged. The method has no error value; both of its scans end with the index `-1`,
so neither of its slice expressions is evaluated. -/
theorem C5_removeSubscription_absent (b : Broker) (t : String) (c : UDPAddrPtr)
    (h1 : c ∉ b.topicMapClients.at t) (h2 : t ∉ b.clientMapTopics.at c) :
    removeSubscription b t c = b ∧
    rangeIndex c (b.topicMapClients.at t) 0 (-1) = -1 ∧
    rangeIndex t (b.clientMapTopics.at c) 0 (-1) = -1 := by
  refine ⟨?_, rangeIndex_not_mem c _ 0 (-1) h1, rangeIndex_not_mem t _ 0 (-1) h2⟩
  rw [removeSubscription_eq, GoMap.removeFrom_of_not_mem _ t c h1,
    GoMap.removeFrom_of_not_mem _ c t h2]

theorem C5_removeSubscription_absent_witness :
    2 ∉ brokerA.topicMapClients.at "temp" ∧ "temp" ∉ brokerA.clientMapTopics.at 2 ∧
    (removeSubscription brokerA "temp" 2 = brokerA ∧
      rangeIndex 2 (brokerA.topicMapClients.at "temp") 0 (-1) = -1 ∧
      rangeIndex "temp" (brokerA.clientMapTopics.at 2) 0 (-1) = -1) :=
  ⟨by rw [brokerA_fwd]; decide, by rw [brokerA_rev_two]; simp,
    C5_removeSubscription_absent brokerA "temp" 2 (by rw [brokerA_fwd]; decide)
      (by rw [brokerA_rev_two]; simp)⟩

/-- C6. For every broker state, topic `t` and client `c`, after `addSubscription(t, c)`
the client `c` is in the slice of `t` and `t` is in the slice of `c`, and the pairs held
by each index are the pairs held before together with `(t, c)`: membership of every
other pair is as before the call. -/
theorem C6_addSubscription_adds_pair (b : Broker) (t : String) (c : UDPAddrPtr) :
    c ∈ (addSubscription b t c).topicMapClients.at t ∧
    t ∈ (addSubscription b t c).clientMapTopics.at c ∧
    ∀ (t2 : String) (c2 : UDPAddrPtr),
      (c2 ∈ (addSubscription b t c).topicMapClients.at t2 ↔
        c2 ∈ b.topicMapClients.at t2 ∨ (t2 = t ∧ c2 = c)) ∧
      (t2 ∈ (addSubscription b t c).clientMapTopics.at c2 ↔
        t2 ∈ b.clientMapTopics.at c2 ∨ (t2 = t ∧ c2 = c)) := by
  rw [addSubscription_eq]
  refine ⟨?_, ?_, ?_⟩
  · exact (GoMap.mem_at_addTo _ t t c c).mpr (Or.inr ⟨rfl, rfl⟩)
  · exact (GoMap.mem_at_addTo _ c c t t).mpr (Or.inr ⟨rfl, rfl⟩)
  · intro t2 c2
    constructor
    · exact GoMap.mem_at_addTo _ t t2 c c2
    · show t2 ∈ (b.clientMapTopics.addTo c t).at c2 ↔ _
      rw [GoMap.mem_at_addTo]
      exact or_congr Iff.rfl and_comm

/-- C7. For every reachable broker state and every subscribed pair `(t, c)`, after
`removeSubscription(t, c)`: `c` is not in the slice of `t` and `t` is not in the slice
of `c`; `t` is still a key of the forward index if and only if another client was
subscribed to `t`, and `c` is still a key of the reverse index if and only if `c` held
another topic; membership of every other pair is unchanged (all of this also holds for a
pair that is not subscribed, where the call changes nothing). And for distinct clients
`A`, `B` of a fresh broker: after `subscribe(temp, A)`, `subscribe(temp, B)`,
`unsubscribe(temp, A)` the topic `temp` is present with the slice `[B]`, and after
`unsubscribe(temp, B)` the key `temp` is absent. -/
theorem C7_removeSubscription_removes_pair (b : Broker) (h : Reachable b) (t : String)
    (c : UDPAddrPtr) (_hsub : c ∈ b.topicMapClients.at t) :
    c ∉ (removeSubscription b t c).topicMapClients.at t ∧
    t ∉ (removeSubscription b t c).clientMapTopics.at c ∧
    (((removeSubscription b t c).topicMapClients t).isSome = true ↔
      ∃ c2, c2 ≠ c ∧ c2 ∈ b.topicMapClients.at t) ∧
    (((removeSubscription b t c).clientMapTopics c).isSome = true ↔
      ∃ t2, t2 ≠ t ∧ t2 ∈ b.clientMapTopics.at c) ∧
    (∀ (t2 : String) (c2 : UDPAddrPtr), ¬ (t2 = t ∧ c2 = c) →
      (c2 ∈ (removeSubscription b t c).topicMapClients.at t2 ↔ c2 ∈ b.topicMapClients.at t2) ∧
      (t2 ∈ (removeSubscription b t c).clientMapTopics.at c2 ↔
        t2 ∈ b.clientMapTopics.at c2)) ∧
    (∀ (maxChannel : Int) (ipv4 rnd : Nat) (A B : UDPAddrPtr), A ≠ B →
      (removeSubscription (addSubscription (addSubscription
          (NewBroker maxChannel ipv4 rnd) "temp" A) "temp" B) "temp" A).topicMapClients "temp"
        = some [B] ∧
      (removeSubscription (removeSubscription (addSubscription (addSubscription
          (NewBroker maxChannel ipv4 rnd) "temp" A) "temp" B) "temp" A) "temp"
          B).topicMapClients "temp" = none) := by
  have hi := Inv_of_reachable b h
  have hi2 := Inv_removeSubscription b t c hi
  have hother : ∀ (t2 : String) (c2 : UDPAddrPtr), ¬ (t2 = t ∧ c2 = c) →
      (c2 ∈ (removeSubscription b t c).topicMapClients.at t2 ↔ c2 ∈ b.topicMapClients.at t2) ∧
      (t2 ∈ (removeSubscription b t c).clientMapTopics.at c2 ↔
        t2 ∈ b.clientMapTopics.at c2) := by
    intro t2 c2 hp
    have hq : ¬ (c2 = c ∧ t2 = t) := fun e => hp ⟨e.2, e.1⟩
    rw [removeSubscription_eq]
    exact ⟨GoMap.mem_at_removeFrom_of_ne _ t t2 c c2 hp,
      GoMap.mem_at_removeFrom_of_ne _ c c2 t t2 hq⟩
  have hfwd : c ∉ (removeSubscription b t c).topicMapClients.at t := by
    rw [removeSubscription_eq]
    exact GoMap.not_mem_at_removeFrom _ t c (hi.fwdNoDup t)
  have hrev : t ∉ (removeSubscription b t c).clientMapTopics.at c := by
    rw [removeSubscription_eq]
    exact GoMap.not_mem_at_removeFrom _ c t (hi.revNoDup c)
  refine ⟨hfwd, hrev, ?_, ?_, hother, scenario_temp⟩
  · rw [GoMap.isSome_iff_of_noEmpty _ hi2.fwdNoEmpty t]
    constructor
    · rintro ⟨c2, hc2⟩
      have hne : c2 ≠ c := fun e => hfwd (e ▸ hc2)
      exact ⟨c2, hne, ((hother t c2 (fun e => hne e.2)).1).mp hc2⟩
    · rintro ⟨c2, hne, hc2⟩
      exact ⟨c2, ((hother t c2 (fun e => hne e.2)).1).mpr hc2⟩
  · rw [GoMap.isSome_iff_of_noEmpty _ hi2.revNoEmpty c]
    constructor
    · rintro ⟨t2, ht2⟩
      have hne : t2 ≠ t := fun e => hrev (e ▸ ht2)
      exact ⟨t2, hne, ((hother t2 c (fun e => hne e.1)).2).mp ht2⟩
    · rintro ⟨t2, hne, ht2⟩
      exact ⟨t2, ((hother t2 c (fun e => hne e.1)).2).mpr ht2⟩

theorem C7_removeSubscription_removes_pair_witness :
    Reachable brokerAB ∧ 1 ∈ brokerAB.topicMapClients.at "temp" ∧
    1 ∉ (removeSubscription brokerAB "temp" 1).topicMapClients.at "temp" ∧
    "temp" ∉ (removeSubscription brokerAB "temp" 1).clientMapTopics.at 1 ∧
    (((removeSubscription brokerAB "temp" 1).topicMapClients "temp").isSome = true ↔
      ∃ c2, c2 ≠ 1 ∧ c2 ∈ brokerAB.topicMapClients.at "temp") :=
  have hsub : 1 ∈ brokerAB.topicMapClients.at "temp" := by
    rw [GoMap.at_of_some _ _ _ brokerAB_fwd]; decide
  have h := C7_removeSubscription_removes_pair brokerAB reachable_brokerAB "temp" 1 hsub
  ⟨reachable_brokerAB, hsub, h.1, h.2.1, h.2.2.1⟩

/-- C8. At the reachable state after `subscribe(temp, A)` and `subscribe(temp, B)`, where
the subscriber slice of `temp` is `[A, B]`, `publish(temp, 23C)` transmits nothing:
`publishMsg` is called for each subscriber and its body is empty. -/
theorem C8_publish_delivers_nothing :
    Reachable brokerAB ∧
    brokerAB.topicMapClients "temp" = some [1, 2] ∧
    (publish brokerAB [] "temp" "23C").2 = [] := by
  refine ⟨reachable_brokerAB, brokerAB_fwd, ?_⟩
  rw [publish_eq]

/-- C9. A message with the path `ADDSUB/temp` from client 1 leaves a fresh broker
without the key `temp`, where `addSubscription(temp, 1)` stores `[1]` under it; the same
holds with the path `ps/ADDSUB/temp`. A message with the path `REMSUB/temp` from the
subscribed client 1 leaves the slice `[1]` under `temp`, where
`removeSubscription(temp, 1)` deletes the key. -/
theorem C9_dispatch_never_updates_registry :
    (handleCoAPMessage broker0 [] 1 (request ["ADDSUB", "temp"] "")).1.topicMapClients "temp"
      = none ∧
    (handleCoAPMessage broker0 [] 1 (request ["ps", "ADDSUB", "temp"] "")).1.topicMapClients
      "temp" = none ∧
    (addSubscription broker0 "temp" 1).topicMapClients "temp" = some [1] ∧
    (handleCoAPMessage brokerA [] 1 (request ["REMSUB", "temp"] "")).1.topicMapClients "temp"
      = some [1] ∧
    (removeSubscription brokerA "temp" 1).topicMapClients "temp" = none := by
  simp only [handleCoAPMessage_eq]
  refine ⟨?_, ?_, ?_, ?_, ?_⟩ <;>
  simp [brokerA, broker0, removeSubscription_eq, addSubscription_eq, NewBroker, GoMap.addTo,
    GoMap.removeFrom, GoMap.at, GoMap.make, GoMap.store, GoMap.del, rangeIndex, cutAt]

/-- C10. For a heartbeat (path `HB`), and for `ADDSUB/temp`, `REMSUB/temp` and
`PUB/temp`, from client 1, with or without the leading segment `ps`,
`handleCoAPMessage` transmits nothing: no acknowledgement is sent. -/
theorem C10_no_acknowledgement_sent :
    (handleCoAPMessage brokerA [] 1 (request ["HB"] "")).2.1 = [] ∧
    (handleCoAPMessage brokerA [] 1 (request ["ADDSUB", "temp"] "")).2.1 = [] ∧
    (handleCoAPMessage brokerA [] 1 (request ["REMSUB", "temp"] "")).2.1 = [] ∧
    (handleCoAPMessage brokerA [] 1 (request ["PUB", "temp"] "23C")).2.1 = [] ∧
    (handleCoAPMessage brokerA [] 1 (request ["ps", "HB"] "")).2.1 = [] ∧
    (handleCoAPMessage brokerA [] 1 (request ["ps", "ADDSUB", "temp"] "")).2.1 = [] ∧
    (handleCoAPMessage brokerA [] 1 (request ["ps", "REMSUB", "temp"] "")).2.1 = [] ∧
    (handleCoAPMessage brokerA [] 1 (request ["ps", "PUB", "temp"] "23C")).2.1 = [] := by
  simp only [handleCoAPMessage_eq, and_self]

/-! ## Lemmas for the remaining claims -/

theorem append_singleton_split {α : Type} (l l1 l2 : List α) (v : α) (hv : v ∉ l)
    (e : l ++ [v] = l1 ++ v :: l2) : l1 = l ∧ l2 = [] := by
  rcases List.eq_nil_or_concat l2 with rfl | ⟨l3, x, rfl⟩
  · have h := List.append_inj' (show l ++ [v] = l1 ++ [v] from e) rfl
    exact ⟨h.1.symm, rfl⟩
  · exfalso
    have e2 : l ++ [v] = (l1 ++ v :: l3) ++ [x] := by
      rw [e]; simp
    have h := List.append_inj' e2 rfl
    exact hv (by rw [h.1]; simp)

/-- Adding an absent element to an index without empty slices and removing it again
gives the index back. -/
theorem GoMap.removeFrom_addTo {K V : Type} [DecidableEq K] [DecidableEq V]
    (m : GoMap K (List V)) (k : K) (v : V) (hm : m.NoEmpty) (hv : v ∉ m.at k) :
    (m.addTo k v).removeFrom k v = m := by
  have hadd : m.addTo k v = m.store k (m.at k ++ [v]) := by
    unfold GoMap.addTo
    rw [if_neg hv]
  have hat : (m.addTo k v).at k = m.at k ++ [v] := by
    rw [hadd, GoMap.at_store, if_pos rfl]
  have hmem : v ∈ (m.addTo k v).at k := by
    rw [hat]; simp
  obtain ⟨l1, l2, e, _, hr⟩ := (m.addTo k v).removeFrom_of_mem k v hmem
  rw [hat] at e
  obtain ⟨rfl, rfl⟩ := append_singleton_split _ l1 l2 v hv e
  rw [hr, hadd, List.append_nil]
  funext x
  by_cases hl : m.at k = []
  · rw [if_pos hl]
    unfold GoMap.del GoMap.store
    by_cases hx : x = k
    · subst hx
      rw [if_pos rfl]
      cases hk : m x with
      | none => rfl
      | some l =>
        exfalso
        have : m.at x = l := GoMap.at_of_some _ _ _ hk
        exact hm x l hk (this ▸ hl)
    · rw [if_neg hx, if_neg hx]
  · rw [if_neg hl]
    unfold GoMap.store
    by_cases hx : x = k
    · subst hx
      rw [if_pos rfl]
      cases hk : m x with
      | none => exact absurd (by simp [GoMap.at, hk]) hl
      | some l => rw [GoMap.at_of_some _ _ _ hk]
    · rw [if_neg hx, if_neg hx]

theorem genMsgIDs_results (k : Nat) (c : Broker) :
    (genMsgIDs k c).2 = (List.range k).map (fun i => (c.msgIndex + (i + 1)) % 65536) := by
  induction k generalizing c with
  | zero => rfl
  | succ k ih =>
    rw [genMsgIDs, List.range_succ_eq_map]
    simp only [List.map_cons, List.map_map]
    rw [ih]
    congr 1
    apply List.map_congr_left
    intro i _
    simp only [genMsgID, Function.comp]
    omega

theorem genMsgIDs_broker (k : Nat) (c : Broker) (hn : c.msgIndex < 65536) :
    (genMsgIDs k c).1 = { c with msgIndex := (c.msgIndex + k) % 65536 } := by
  induction k generalizing c with
  | zero =>
    simp only [genMsgIDs, Nat.add_zero]
    rw [Nat.mod_eq_of_lt hn]
  | succ k ih =>
    rw [genMsgIDs]
    simp only
    rw [ih _ (by simp only [genMsgID]; omega)]
    simp only [genMsgID]
    congr 1
    omega

/-! ## The remaining claims -/

/-- C11. At the reachable state where `temp` has the subscribers `[A, B]`, a `PUB`
message on `temp` with payload `23C` from client 3 transmits nothing at all, with or
without the leading segment `ps`: no delivery to A or B and no acknowledgement to the
publisher. The same holds for a `PUB` on a topic without subscribers. -/
theorem C11_pub_sends_nothing :
    Reachable brokerAB ∧
    brokerAB.topicMapClients "temp" = some [1, 2] ∧
    (handleCoAPMessage brokerAB [] 3 (request ["PUB", "temp"] "23C")).2.1 = [] ∧
    (handleCoAPMessage brokerAB [] 3 (request ["ps", "PUB", "temp"] "23C")).2.1 = [] ∧
    (handleCoAPMessage broker0 [] 3 (request ["PUB", "temp"] "23C")).2.1 = [] := by
  simp only [handleCoAPMessage_eq, and_self, and_true]
  exact ⟨reachable_brokerAB, brokerAB_fwd⟩

/-- C12. For every broker state, sender and message that is not a well-formed
recognised command (an empty path, a first segment other than `ADDSUB`, `REMSUB`,
`PUB`, `HB`, or one of `ADDSUB`, `REMSUB`, `PUB` with no segment after it),
`handleCoAPMessage` transmits nothing, neither acknowledgement nor delivery, and
leaves both indexes unchanged. -/
theorem C12_malformed_dropped (c : Broker) (w : Wire) (a : UDPAddrPtr) (m : Message)
    (_hbad : m.Path = [] ∨
      (∃ verb rest, m.Path = verb :: rest ∧ verb ∉ ["ADDSUB", "REMSUB", "PUB", "HB"]) ∨
      (∃ verb, m.Path = [verb] ∧ verb ∈ ["ADDSUB", "REMSUB", "PUB"])) :
    (handleCoAPMessage c w a m).2.1 = w ∧
    (handleCoAPMessage c w a m).1.topicMapClients = c.topicMapClients ∧
    (handleCoAPMessage c w a m).1.clientMapTopics = c.clientMapTopics := by
  rw [handleCoAPMessage_eq]
  exact ⟨rfl, rfl, rfl⟩

theorem C12_malformed_dropped_witness :
    (handleCoAPMessage brokerAB [] 3 (request ["BOGUS"] "")).2.1 = [] ∧
    (handleCoAPMessage brokerAB [] 3 (request ["BOGUS"] "")).1.topicMapClients
      = brokerAB.topicMapClients ∧
    (handleCoAPMessage brokerAB [] 3 (request ["BOGUS"] "")).1.clientMapTopics
      = brokerAB.clientMapTopics :=
  C12_malformed_dropped brokerAB [] 3 (request ["BOGUS"] "")
    (Or.inr (Or.inl ⟨"BOGUS", [], rfl, by decide⟩))

/-- C13. For every request `m` and sender `a`, `responseOK` transmits exactly one
message: it is addressed to `a`, has type `Acknowledgement`, the `MessageID` of `m`,
the payload of `m`, the path of `m`, and the content format link-format. The broker
is unchanged. -/
theorem C13_responseOK_message (c : Broker) (w : Wire) (a : UDPAddrPtr) (m : Message) :
    ∃ t : Transmission,
      (responseOK c w a m).2 = w ++ [t] ∧
      t.dest = a ∧
      t.msg.Typ = COAPType.Acknowledgement ∧
      t.msg.MessageID = m.MessageID ∧
      t.msg.Payload = m.Payload ∧
      t.msg.Path = m.Path ∧
      t.msg.ContentFormat = some MediaType.AppLinkFormat :=
  ⟨_, rfl, rfl, rfl, rfl, rfl, rfl, rfl⟩

/-- C14, as stated, fails: the handles 1 and 2 denote the same endpoint, yet after
`addSubscription(temp, 1)` and `addSubscription(temp, 2)` the topic holds two entries
for that endpoint, and `removeSubscription(temp, 2)` after `addSubscription(temp, 1)`
leaves the subscription of handle 1 in place. -/
theorem C14_by_value_counterexample :
    sampleHeap 1 = sampleHeap 2 ∧
    (endpointEntries sampleHeap
      (addSubscription (addSubscription broker0 "temp" 1) "temp" 2) "temp"
      (sampleHeap 1)).length = 2 ∧
    (removeSubscription (addSubscription broker0 "temp" 1) "temp" 2).topicMapClients "temp"
      = some [1] := by
  refine ⟨by simp [sampleHeap], ?_, ?_⟩
  · simp [endpointEntries, sampleHeap, broker0, addSubscription_eq, NewBroker, GoMap.addTo,
      GoMap.at, GoMap.make, GoMap.store]
  · simp [broker0, removeSubscription_eq, addSubscription_eq, NewBroker, GoMap.addTo,
      GoMap.removeFrom, GoMap.at, GoMap.make, GoMap.store]

/-- C14, amended. Client equality in the registry is identity of the handle. In every
reachable state, for every topic `t`: adding the same handle twice leaves exactly one
entry for it under `t`, and removing it after adding it removes the subscription from
both indexes; two distinct handles are two clients, each with its own entry under `t`,
so two entries for one endpoint when they denote the same endpoint, and removing one
handle leaves the subscription of the other in place. -/
theorem C14_identity_by_handle (heap : AddrHeap) (b : Broker) (hb : Reachable b)
    (t : String) (h1 h2 : UDPAddrPtr) :
    (h1 = h2 →
      List.count h1 ((addSubscription (addSubscription b t h1) t h2).topicMapClients.at t) = 1 ∧
      h1 ∉ (removeSubscription (addSubscription b t h1) t h2).topicMapClients.at t ∧
      t ∉ (removeSubscription (addSubscription b t h1) t h2).clientMapTopics.at h1) ∧
    (h1 ≠ h2 →
      List.count h1 ((addSubscription (addSubscription b t h1) t h2).topicMapClients.at t) = 1 ∧
      List.count h2 ((addSubscription (addSubscription b t h1) t h2).topicMapClients.at t) = 1 ∧
      (heap h1 = heap h2 →
        2 ≤ (endpointEntries heap (addSubscription (addSubscription b t h1) t h2) t
          (heap h1)).length) ∧
      h1 ∈ (removeSubscription (addSubscription b t h1) t h2).topicMapClients.at t) := by
  have hr1 : Reachable (addSubscription b t h1) := Reachable.add t h1 hb
  have hr2 : Reachable (addSubscription (addSubscription b t h1) t h2) := Reachable.add t h2 hr1
  have hi1 := Inv_of_reachable _ hr1
  have hi2 := Inv_of_reachable _ hr2
  have hm1 : h1 ∈ (addSubscription b t h1).topicMapClients.at t := by
    rw [addSubscription_eq]
    exact (GoMap.mem_at_addTo _ t t h1 h1).mpr (Or.inr ⟨rfl, rfl⟩)
  have hm21 : h1 ∈ (addSubscription (addSubscription b t h1) t h2).topicMapClients.at t := by
    rw [addSubscription_eq (addSubscription b t h1)]
    exact (GoMap.mem_at_addTo _ t t h2 h1).mpr (Or.inl hm1)
  have hm22 : h2 ∈ (addSubscription (addSubscription b t h1) t h2).topicMapClients.at t := by
    rw [addSubscription_eq (addSubscription b t h1)]
    exact (GoMap.mem_at_addTo _ t t h2 h2).mpr (Or.inr ⟨rfl, rfl⟩)
  constructor
  · intro e
    subst e
    refine ⟨List.count_eq_one_of_mem (hi2.fwdNoDup t) hm21, ?_, ?_⟩
    · rw [removeSubscription_eq]
      exact GoMap.not_mem_at_removeFrom _ t h1 (hi1.fwdNoDup t)
    · rw [removeSubscription_eq]
      exact GoMap.not_mem_at_removeFrom _ h1 t (hi1.revNoDup h1)
  · intro hne
    refine ⟨List.count_eq_one_of_mem (hi2.fwdNoDup t) hm21,
      List.count_eq_one_of_mem (hi2.fwdNoDup t) hm22, ?_, ?_⟩
    · intro he
      have hnd : [h1, h2].Nodup := by simp [hne]
      have hsub : [h1, h2] ⊆ endpointEntries heap
          (addSubscription (addSubscription b t h1) t h2) t (heap h1) := by
        intro x hx
        unfold endpointEntries
        rw [List.mem_filter]
        rcases List.mem_pair.mp hx with rfl | rfl
        · exact ⟨hm21, by simp⟩
        · exact ⟨hm22, by simp [he]⟩
      exact (List.subperm_of_subset hnd hsub).length_le
    · rw [removeSubscription_eq]
      exact (GoMap.mem_at_removeFrom_of_ne _ t t h2 h1 (fun e => hne e.2)).mpr hm1

theorem C14_identity_by_handle_witness :
    Reachable broker0 ∧ (1 : UDPAddrPtr) ≠ 2 ∧ sampleHeap 1 = sampleHeap 2 ∧
    2 ≤ (endpointEntries sampleHeap
      (addSubscription (addSubscription broker0 "temp" 1) "temp" 2) "temp"
      (sampleHeap 1)).length ∧
    1 ∈ (removeSubscription (addSubscription broker0 "temp" 1) "temp" 2).topicMapClients.at
      "temp" :=
  have h := (C14_identity_by_handle sampleHeap broker0 reachable_broker0 "temp" 1 2).2
    (by decide)
  ⟨reachable_broker0, by decide, by simp [sampleHeap], h.2.2.1 (by simp [sampleHeap]),
    h.2.2.2⟩

/-- C15. For every broker whose counter `n` is a `uint16` value, `genMsgID` returns
`(n + 1) mod 65536` and stores it as the new counter: `n + 1` below 65535, and 0 at
65535. Successive calls return `n + 1`, `n + 2`, ... modulo `2 ^ 16`, after `k` calls
the counter is `(n + k) mod 65536`, and both indexes are left unchanged. -/
theorem C15_genMsgID_counter (c : Broker) (hn : c.msgIndex < 65536) :
    (genMsgID c).2 = (c.msgIndex + 1) % 65536 ∧
    (genMsgID c).1.msgIndex = (c.msgIndex + 1) % 65536 ∧
    (c.msgIndex < 65535 → (genMsgID c).2 = c.msgIndex + 1) ∧
    (c.msgIndex = 65535 → (genMsgID c).2 = 0) ∧
    (genMsgID c).1.topicMapClients = c.topicMapClients ∧
    (genMsgID c).1.clientMapTopics = c.clientMapTopics ∧
    (∀ k, (genMsgIDs k c).2 = (List.range k).map (fun i => (c.msgIndex + (i + 1)) % 65536)) ∧
    (∀ k, (genMsgIDs k c).1.msgIndex = (c.msgIndex + k) % 65536 ∧
      (genMsgIDs k c).1.topicMapClients = c.topicMapClients ∧
      (genMsgIDs k c).1.clientMapTopics = c.clientMapTopics) := by
  refine ⟨rfl, rfl, ?_, ?_, rfl, rfl, fun k => genMsgIDs_results k c, ?_⟩
  · intro h
    simp only [genMsgID]
    omega
  · intro h
    simp only [genMsgID]
    omega
  · intro k
    rw [genMsgIDs_broker k c hn]
    exact ⟨rfl, rfl, rfl⟩

theorem C15_genMsgID_counter_witness :
    ((NewBroker 1024 65000 535).msgIndex < 65536) ∧
    (genMsgID (NewBroker 1024 65000 535)).2 = 0 ∧
    (genMsgIDs 3 (NewBroker 1024 65000 535)).2 = [0, 1, 2] :=
  have hn : (NewBroker 1024 65000 535).msgIndex < 65536 := by decide
  have h := C15_genMsgID_counter (NewBroker 1024 65000 535) hn
  ⟨hn, h.2.2.2.1 (by decide), by rw [h.2.2.2.2.2.2.1 3]; decide⟩

/-- C16. A broker created by `NewBroker(1)` holds two topic keys after
`addSubscription(a, 1)` and `addSubscription(b, 1)`: `capacity` is stored and never
compared with the number of topics. -/
theorem C16_capacity_not_enforced :
    (NewBroker 1 0 0).capacity = 1 ∧
    ((addSubscription (addSubscription (NewBroker 1 0 0) "a" 1) "b" 1).topicMapClients
      "a").isSome = true ∧
    ((addSubscription (addSubscription (NewBroker 1 0 0) "a" 1) "b" 1).topicMapClients
      "b").isSome = true ∧
    "a" ≠ "b" := by
  refine ⟨rfl, ?_, ?_, by decide⟩ <;>
  simp [addSubscription_eq, NewBroker, GoMap.addTo, GoMap.at, GoMap.make, GoMap.store]

/-- C18. For every broker state, sender and message, `handleCoAPMessage` returns nil,
leaves `topicMapClients`, `clientMapTopics` and `msgIndex` unchanged and transmits
nothing, neither acknowledgement nor delivery. -/
theorem C18_handler_does_nothing (c : Broker) (w : Wire) (a : UDPAddrPtr) (m : Message) :
    (handleCoAPMessage c w a m).2.2 = none ∧
    (handleCoAPMessage c w a m).1.topicMapClients = c.topicMapClients ∧
    (handleCoAPMessage c w a m).1.clientMapTopics = c.clientMapTopics ∧
    (handleCoAPMessage c w a m).1.msgIndex = c.msgIndex ∧
    (handleCoAPMessage c w a m).2.1 = w := by
  rw [handleCoAPMessage_eq]
  exact ⟨rfl, rfl, rfl, rfl, rfl⟩

/-- C19. For every broker state without an empty slice under any key, and every pair
`(t, c)` absent from both indexes, `addSubscription(t, c)` followed by
`removeSubscription(t, c)` gives the original broker back: the same keys and the same
slices in both indexes. -/
theorem C19_add_then_remove_restores (b : Broker) (t : String) (c : UDPAddrPtr)
    (hf : b.topicMapClients.NoEmpty) (hr : b.clientMapTopics.NoEmpty)
    (h1 : c ∉ b.topicMapClients.at t) (h2 : t ∉ b.clientMapTopics.at c) :
    removeSubscription (addSubscription b t c) t c = b := by
  rw [removeSubscription_eq, addSubscription_eq]
  simp only [GoMap.removeFrom_addTo _ t c hf h1, GoMap.removeFrom_addTo _ c t hr h2]

theorem C19_add_then_remove_restores_witness :
    brokerA.topicMapClients.NoEmpty ∧ brokerA.clientMapTopics.NoEmpty ∧
    2 ∉ brokerA.topicMapClients.at "temp" ∧ "temp" ∉ brokerA.clientMapTopics.at 2 ∧
    removeSubscription (addSubscription brokerA "temp" 2) "temp" 2 = brokerA :=
  have hi := Inv_of_reachable brokerA reachable_brokerA
  have h1 : 2 ∉ brokerA.topicMapClients.at "temp" := by rw [brokerA_fwd]; decide
  have h2 : "temp" ∉ brokerA.clientMapTopics.at 2 := by rw [brokerA_rev_two]; simp
  ⟨hi.fwdNoEmpty, hi.revNoEmpty, h1, h2,
    C19_add_then_remove_restores brokerA "temp" 2 hi.fwdNoEmpty hi.revNoEmpty h1 h2⟩

end Coapmq
